import Mathlib

/-!
Verification of the retrieval-subsystem specification of the
JLV-Markdown-to-VAGPT repository against its code.

The React frontend (`frontend/src`) is embedded shallowly: component state
becomes explicit records, event handlers become pure functions on that state,
and a JavaScript object keyed by numeric indices becomes an association list
whose enumeration (`Object.keys` / `Object.values`) follows the JavaScript
rule that canonical numeric keys enumerate in ascending numeric order.

The backend components named by the spec (Document Index, Similarity Search
Engine, cosine similarity, `ensure_embedded`) are not present in the
repository's source tree — only their frontend callers are — so they are
modelled from the spec where a claim needs them; each such definition carries
a doc comment saying so.
-/

/-- A search result object as produced by the search API and rendered by
`Search.jsx`: the chunk text, its similarity score, and optional metadata.
This is the `chunkData` value stored in `App.jsx`'s `selectedChunks` map. -/
structure ChunkData where
  chunk : String
  score : ℚ
  metadata : Option String
deriving DecidableEq, Repr

/-- `App.jsx`'s `selectedChunks` state (`{ [index]: chunkData }`): a
JavaScript object keyed by numeric result index.  We record the key/value
properties as an association list; lookups and enumeration are defined
below following JavaScript object semantics. -/
abbrev SelMap := List (Nat × ChunkData)

/-- Property read `m[i]` on the selection object: the value at the first
property whose key is `i`, if any. -/
def selGet (m : SelMap) (i : Nat) : Option ChunkData :=
  match m with
  | [] => none
  | p :: rest => if p.1 = i then some p.2 else selGet rest i

/-- An exclusive upper bound on the numeric keys present in the object,
used to drive key enumeration. -/
def keyBound (m : SelMap) : Nat :=
  m.foldr (fun p acc => max (p.1 + 1) acc) 0

/-- `Object.keys(m)` for an object with numeric keys: JavaScript enumerates
canonical numeric property keys in ascending numeric order. -/
def objKeys (m : SelMap) : List Nat :=
  (List.range (keyBound m)).filter (fun i => (selGet m i).isSome)

/-- `Object.values(m)` for an object with numeric keys: the property values
in ascending key order. -/
def objValues (m : SelMap) : List ChunkData :=
  (List.range (keyBound m)).filterMap (selGet m)

/-- `App.jsx` `handleToggleChunkSelection`: copy the map, delete the entry
at `resultIndex` when present, otherwise insert `chunkData` there. -/
def handleToggleChunkSelection (m : SelMap) (resultIndex : Nat)
    (chunkData : ChunkData) : SelMap :=
  if (selGet m resultIndex).isSome then
    m.filter (fun p => p.1 != resultIndex)
  else
    m ++ [(resultIndex, chunkData)]

/-- JavaScript truthiness of a string-or-null value (`null`, `undefined`
and the empty string are falsy). -/
def truthyStr (o : Option String) : Bool :=
  o.getD "" != ""

/-- `Chat.jsx` lines 43-45: the chunk texts extracted from the selection,
`Object.keys(selectedChunks).length > 0 ? Object.values(selectedChunks).map(chunkData => chunkData.chunk) : []`. -/
def selectedChunkTexts (m : SelMap) : List String :=
  if 0 < (objKeys m).length then (objValues m).map (fun c => c.chunk) else []

/-- The JSON body `Chat.jsx` posts to `/api/chat`: the question, plus
`doc_id` and `context_chunks` fields that are present only when set. -/
structure ChatPayload where
  question : String
  doc_id : Option String := none
  context_chunks : Option (List String) := none
deriving DecidableEq, Repr

/-- JavaScript `String.prototype.trim()`: strip leading and trailing
whitespace (defined over the character list so it is kernel-evaluable). -/
def jsTrim (s : String) : String :=
  String.mk (((s.data.dropWhile (fun c => c.isWhitespace)).reverse.dropWhile
    (fun c => c.isWhitespace)).reverse)

/-- `Chat.jsx` `handleQuestionSubmit`: returns `none` when the blank-question
guard fires (no request is sent), otherwise the payload posted to the chat
API.  `doc_id` is added whenever `docId` is truthy; `context_chunks` is added
exactly when the extracted selection texts are non-empty. -/
def handleQuestionSubmit (currentQuestion : String) (docId : Option String)
    (selectedChunks : SelMap) : Option ChatPayload :=
  if jsTrim currentQuestion == "" then none
  else
    let p1 : ChatPayload := { question := currentQuestion }
    let p2 := if truthyStr docId then { p1 with doc_id := docId } else p1
    let selTexts := selectedChunkTexts selectedChunks
    some (if 0 < selTexts.length then { p2 with context_chunks := some selTexts } else p2)

/-- The embedding-status payload handed to `App.jsx`
`handleNewEmbeddingsStatus`: a JavaScript object probed for an `error`
field, a `message` field and numeric count fields. -/
structure StatusData where
  error : Option String := none
  message : Option String := none
  successful_embeddings_count : Option Int := none
  total_chunks_processed : Option Int := none
deriving DecidableEq, Repr

/-- JavaScript template-string rendering of a possibly-missing number
(`undefined` is printed literally). -/
def jsNumString (o : Option Int) : String :=
  match o with
  | some n => toString n
  | none => "undefined"

/-- `App.jsx` `handleNewEmbeddingsStatus` as a function from the incoming
status payload and the previous displayed status to the new displayed
status.  Field probes follow JavaScript truthiness (`statusData.error`,
`statusData.message`) except the count, which is a `typeof x === 'number'`
check. -/
def handleNewEmbeddingsStatus (statusData : Option StatusData)
    (prevStatus : Option String) : Option String :=
  match statusData with
  | none => prevStatus
  | some st =>
    if truthyStr st.error then
      some ("Embedding issue: " ++ st.error.getD "")
    else if truthyStr st.message then
      st.message
    else if st.successful_embeddings_count.isSome then
      some ("Embeddings processed: " ++ jsNumString st.successful_embeddings_count
        ++ " of " ++ jsNumString st.total_chunks_processed ++ " chunks.")
    else
      some "Embedding status received with unknown format."

/-- The upload response stored by `App.jsx` as `uploadedDocData`. -/
structure UploadData where
  doc_id : String
  filename : String
  markdown_text : String
deriving DecidableEq, Repr

/-- The `App.jsx` state relevant to selection and status handling. -/
structure AppState where
  uploadedDocData : Option UploadData
  embeddingStatus : Option String
  selectedChunks : SelMap
deriving Repr

/-- The active document id, `uploadedDocData?.doc_id`. -/
def AppState.docId (s : AppState) : Option String :=
  s.uploadedDocData.map (fun d => d.doc_id)

/-- The state-changing events `App.jsx` reacts to: a successful upload
(`handleUploadSuccess`), a chunk toggle, an explicit clear, a search that
passed its guards (`Search.jsx` calls `onSearchResultsUpdated`), and an
embedding-status notification. -/
inductive AppEvent
  | uploadSuccess (data : UploadData)
  | toggleChunk (resultIndex : Nat) (chunkData : ChunkData)
  | clearSelections
  | searchIssued
  | embeddingsStatus (statusData : Option StatusData)

/-- One `App.jsx` state transition per event, transcribing the handlers:
`handleUploadSuccess` stores the data, resets the status and clears the
selection; toggling routes through `handleToggleChunkSelection`;
`handleClearSelectedChunks` and `onSearchResultsUpdated` both set the
selection to the empty object; a status notification routes through
`handleNewEmbeddingsStatus`. -/
def appStep (s : AppState) : AppEvent → AppState
  | .uploadSuccess data =>
      { uploadedDocData := some data, embeddingStatus := none, selectedChunks := [] }
  | .toggleChunk i d =>
      { s with selectedChunks := handleToggleChunkSelection s.selectedChunks i d }
  | .clearSelections => { s with selectedChunks := [] }
  | .searchIssued => { s with selectedChunks := [] }
  | .embeddingsStatus st =>
      { s with embeddingStatus := handleNewEmbeddingsStatus st s.embeddingStatus }

/-- A user toggle sequence applied to a selection map: `Search.jsx` line 154
always passes the search result at the toggled index
(`onToggleChunkSelection(index, result)`), so the data accompanying index
`i` is `results i`. -/
def applyToggles (results : Nat → ChunkData) (m : SelMap) : List Nat → SelMap
  | [] => m
  | i :: is => applyToggles results (handleToggleChunkSelection m i (results i)) is

/-- Coherence of a selection with the results list: every stored value is
the search result at its own key.  Every reachable `selectedChunks` state
satisfies this. -/
def selCoherent (results : Nat → ChunkData) (m : SelMap) : Prop :=
  ∀ i v, selGet m i = some v → v = results i

/-- The events relevant to `Search.jsx`'s embed-once behaviour: a change of
the active document id (the `useEffect [docId]` body) or a click of the
Search button, recording whether the guards would pass (`docIdPresent`,
`queryNonBlank`) and whether the embed call would succeed (`embedOk`). -/
inductive SearchEvent
  | docChange
  | searchClick (docIdPresent : Bool) (queryNonBlank : Bool) (embedOk : Bool)
deriving DecidableEq, Repr

/-- The embed phase of `Search.jsx` `handleSearch`, restricted to the
`hasAttemptedEmbed` flag: returns the new flag and whether an embed request
was issued.  The guards return early without touching the flag; when the
flag is unset an embed request is issued and the flag is set whether the
call succeeds (line 56) or fails (line 67); when the flag is set no request
is issued. -/
def searchEmbedPhase (docIdPresent queryNonBlank embedOk : Bool)
    (hasAttemptedEmbed : Bool) : Bool × Bool :=
  if !docIdPresent then (hasAttemptedEmbed, false)
  else if !queryNonBlank then (hasAttemptedEmbed, false)
  else if !hasAttemptedEmbed then
    (if embedOk then (true, true) else (true, true))
  else (hasAttemptedEmbed, false)

/-- One step of the `hasAttemptedEmbed` flag: a document change resets it to
`false` (the `useEffect` body, line 24) and issues no embed request; a
search click runs the embed phase. -/
def searchFlagStep (flag : Bool) : SearchEvent → Bool × Bool
  | .docChange => (false, false)
  | .searchClick dp qb ok => searchEmbedPhase dp qb ok flag

/-- Run a sequence of search events from a flag state, returning the final
flag and the total number of embed requests issued. -/
def runSearchEvents (flag : Bool) : List SearchEvent → Bool × Nat
  | [] => (flag, 0)
  | e :: es =>
      let step := searchFlagStep flag e
      let rest := runSearchEvents step.1 es
      (rest.1, (if step.2 then 1 else 0) + rest.2)

/-- Modelled from the spec: chunk embedding status (the backend Document
Index is not under the repository's source tree). -/
inductive EmbStatus
  | pending
  | ok
  | failed
deriving DecidableEq, Repr

/-- Modelled from the spec: a chunk held by the Document Index — its stable
0-based index, its text, its embedding status and its vector (absent until
computed). -/
structure Chunk where
  index : Nat
  text : String
  status : EmbStatus
  vector : Option (List ℚ)
deriving DecidableEq, Repr

/-- Modelled from the spec: a document as held by the Document Index, its
ordered chunk list. -/
structure Document where
  chunks : List Chunk
deriving DecidableEq, Repr

/-- Modelled from the spec: the per-process Document Index, keyed by
document id. -/
abbrev DocumentIndex := List (String × Document)

/-- Modelled from the spec: errors a Document Index operation can surface
(`NotFound` for an unknown document id, `EmbeddingUnavailable` for a fatal
query-embedding failure). -/
inductive IndexError
  | notFound
  | embeddingUnavailable
deriving DecidableEq, Repr

/-- Modelled from the spec: looking a document up in the Document Index; an
unknown document id fails with `NotFound`. -/
def lookupDoc (idx : DocumentIndex) (docId : String) : Except IndexError Document :=
  match idx.find? (fun p => p.1 == docId) with
  | some p => Except.ok p.2
  | none => Except.error IndexError.notFound

/-- Modelled from the spec: `get_vectors(document_id)` — the document's
chunks restricted to `ok` status, paired with their vectors. -/
def get_vectors (idx : DocumentIndex) (docId : String) :
    Except IndexError (List (Chunk × List ℚ)) :=
  (lookupDoc idx docId).map (fun d =>
    d.chunks.filterMap (fun c =>
      if c.status == EmbStatus.ok then c.vector.map (fun v => (c, v)) else none))

/-- Modelled from the spec: embedding one chunk during `ensure_embedded`.
A chunk already `ok` is skipped (zero provider calls); otherwise one
provider call is made and the chunk becomes `ok` with its vector on
success, `failed` on a per-chunk failure.  The external provider is the
function `provider` from chunk text to an optional vector. -/
def embedChunkStep (provider : String → Option (List ℚ)) (c : Chunk) : Chunk × Nat :=
  if c.status == EmbStatus.ok then (c, 0)
  else
    match provider c.text with
    | some v => ({ c with status := EmbStatus.ok, vector := some v }, 1)
    | none => ({ c with status := EmbStatus.failed, vector := none }, 1)

/-- Modelled from the spec: the chunk pass of `ensure_embedded`, processing
chunks in order and accumulating the provider call count. -/
def ensureEmbeddedChunks (provider : String → Option (List ℚ)) :
    List Chunk → List Chunk × Nat
  | [] => ([], 0)
  | c :: cs =>
      let step := embedChunkStep provider c
      let rest := ensureEmbeddedChunks provider cs
      (step.1 :: rest.1, step.2 + rest.2)

/-- Modelled from the spec: `ensure_embedded` on a document already in hand,
returning the updated document and the number of provider calls made. -/
def ensureEmbeddedDoc (provider : String → Option (List ℚ)) (d : Document) :
    Document × Nat :=
  let r := ensureEmbeddedChunks provider d.chunks
  (⟨r.1⟩, r.2)

/-- Modelled from the spec: `ensure_embedded(document_id)` at the Document
Index interface; an unknown document id fails with `NotFound`. -/
def ensure_embedded (provider : String → Option (List ℚ)) (idx : DocumentIndex)
    (docId : String) : Except IndexError (Document × Nat) :=
  (lookupDoc idx docId).map (ensureEmbeddedDoc provider)

/-- All chunks of a document have `ok` embedding status. -/
def Document.allOk (d : Document) : Prop :=
  ∀ c ∈ d.chunks, c.status = EmbStatus.ok

/-- The number of chunks not yet `ok`. -/
def Document.countNotOk (d : Document) : Nat :=
  d.chunks.countP (fun c => !(c.status == EmbStatus.ok))

/-- Modelled from the spec: a search result — chunk index, chunk text,
similarity score. -/
structure SearchResult where
  index : Nat
  chunk : String
  score : ℚ
deriving DecidableEq, Repr

/-- Modelled from the spec: the search ordering — descending similarity
score, ties broken by ascending chunk index. -/
def resultLE (a b : SearchResult) : Bool :=
  decide (b.score < a.score) || (decide (a.score = b.score) && decide (a.index ≤ b.index))

/-- Modelled from the spec: `search(document_id, query, top_k)`.  The
query embedding is an input (`none` models a fatal query-embedding failure,
surfaced as `EmbeddingUnavailable`); the similarity metric `sim` is a
parameter (the spec fixes it to cosine similarity over floating-point
vectors, modelled separately as `cosineSim`).  Each stored `ok` vector is
scored against the query, results are sorted by descending score with ties
broken by ascending chunk index, and the first `top_k` are returned. -/
def search (sim : List ℚ → List ℚ → ℚ) (idx : DocumentIndex) (docId : String)
    (queryEmb : Option (List ℚ)) (top_k : Nat) :
    Except IndexError (List SearchResult) :=
  match queryEmb with
  | none => Except.error IndexError.embeddingUnavailable
  | some qv =>
      (get_vectors idx docId).map (fun pairs =>
        let scored := pairs.map (fun p =>
          { index := p.1.index, chunk := p.1.text, score := sim p.2 qv : SearchResult })
        (scored.mergeSort resultLE).take top_k)

/-- Modelled from the spec: the dot product of two vectors. -/
def dotQ (a b : List ℚ) : ℚ :=
  (List.zipWith (fun x y => x * y) a b).sum

/-- Modelled from the spec: the squared Euclidean norm of a vector. -/
def normSq (a : List ℚ) : ℚ :=
  dotQ a a

/-- A vector all of whose components are zero. -/
def isZeroVec (a : List ℚ) : Bool :=
  a.all (fun x => x == 0)

/-- Modelled from the spec: cosine similarity,
`dot(a,b) / (sqrt(normSq a) * sqrt(normSq b))`, with a defined result of 0
when either vector is the zero vector, to avoid division by zero. -/
noncomputable def cosineSim (a b : List ℚ) : ℝ :=
  if isZeroVec a || isZeroVec b then 0
  else (dotQ a b : ℝ) / (Real.sqrt (normSq a : ℝ) * Real.sqrt (normSq b : ℝ))

theorem selGet_nil (j : Nat) : selGet [] j = none := rfl

theorem selGet_filter_ne (m : SelMap) (i j : Nat) :
    selGet (m.filter (fun p => p.1 != i)) j = if j = i then none else selGet m j := by
  induction m with
  | nil => simp [selGet]
  | cons p m ih =>
    by_cases hpi : p.1 = i
    · rw [List.filter_cons_of_neg (by simp [hpi])]
      by_cases hpj : p.1 = j
      · have hji : j = i := by rw [← hpj, hpi]
        rw [ih]
        simp [hji]
      · have hji : ¬ j = i := fun h => hpj (by rw [hpi, h])
        rw [ih]
        simp [hji, selGet, hpj]
    · rw [List.filter_cons_of_pos (by simp [hpi])]
      by_cases hpj : p.1 = j
      · have hji : ¬ j = i := fun h => hpi (by rw [hpj, h])
        simp [selGet, hpj, hji]
      · simp only [selGet, hpj, if_false]
        exact ih

theorem selGet_append_single (m : SelMap) (i j : Nat) (d : ChunkData) :
    selGet (m ++ [(i, d)]) j =
      ((selGet m j).or (if j = i then some d else none)) := by
  induction m with
  | nil =>
    by_cases hji : j = i
    · simp [selGet, hji]
    · simp only [selGet, Option.none_or, if_neg hji]
      rw [if_neg (fun h => hji (Eq.symm h))]
  | cons p m ih =>
    by_cases hpj : p.1 = j
    · simp [selGet, hpj]
    · simp only [List.cons_append, selGet, hpj, if_false]
      exact ih

theorem selGet_toggle (m : SelMap) (i : Nat) (d : ChunkData) (j : Nat) :
    selGet (handleToggleChunkSelection m i d) j =
      if j = i then (if (selGet m i).isSome then none else some d)
      else selGet m j := by
  unfold handleToggleChunkSelection
  cases h : selGet m i with
  | some v =>
    simp only [Option.isSome_some]
    rw [if_pos trivial, selGet_filter_ne]
    simp [h]
  | none =>
    simp only [Option.isSome_none]
    rw [if_neg (by simp), selGet_append_single]
    by_cases hji : j = i
    · subst hji
      simp [h]
    · simp [hji]

theorem keyBound_cons (p : Nat × ChunkData) (m : SelMap) :
    keyBound (p :: m) = max (p.1 + 1) (keyBound m) := rfl

theorem lt_keyBound_of_mem {m : SelMap} {p : Nat × ChunkData} (hp : p ∈ m) :
    p.1 < keyBound m := by
  induction m with
  | nil => cases hp
  | cons q m ih =>
    rw [keyBound_cons]
    rcases List.mem_cons.mp hp with h | h
    · subst h
      exact lt_of_lt_of_le (Nat.lt_succ_self p.1) (le_max_left _ _)
    · exact lt_of_lt_of_le (ih h) (le_max_right _ _)

theorem mem_of_selGet_eq_some {m : SelMap} {i : Nat} {v : ChunkData}
    (h : selGet m i = some v) : (i, v) ∈ m := by
  induction m with
  | nil => simp [selGet] at h
  | cons p m ih =>
    by_cases hpi : p.1 = i
    · simp only [selGet, hpi, if_true, Option.some.injEq] at h
      exact List.mem_cons.mpr (Or.inl (by rw [← hpi, ← h]))
    · simp only [selGet, hpi, if_false] at h
      exact List.mem_cons_of_mem _ (ih h)

theorem selGet_lt_keyBound {m : SelMap} {i : Nat} {v : ChunkData}
    (h : selGet m i = some v) : i < keyBound m :=
  lt_keyBound_of_mem (mem_of_selGet_eq_some h)

theorem mem_objKeys {m : SelMap} {i : Nat} :
    i ∈ objKeys m ↔ (selGet m i).isSome = true := by
  unfold objKeys
  rw [List.mem_filter, List.mem_range]
  constructor
  · exact fun h => h.2
  · intro h
    refine ⟨?_, h⟩
    cases hv : selGet m i with
    | none => rw [hv] at h; cases h
    | some v => exact selGet_lt_keyBound hv

theorem filterMap_eq_map_filter_of {α β : Type} (f : α → Option β) (g : α → β)
    (h : ∀ i v, f i = some v → v = g i) (l : List α) :
    l.filterMap f = (l.filter (fun i => (f i).isSome)).map g := by
  induction l with
  | nil => rfl
  | cons a l ih =>
    cases ha : f a with
    | none => simp [List.filterMap_cons, ha, List.filter_cons, ih]
    | some v => simp [List.filterMap_cons, ha, List.filter_cons, ih, h a v ha]

theorem length_filterMap_isSome {α β : Type} (f : α → Option β) (l : List α) :
    (l.filterMap f).length = (l.filter (fun i => (f i).isSome)).length := by
  induction l with
  | nil => rfl
  | cons a l ih =>
    cases ha : f a <;> simp [List.filterMap_cons, ha, List.filter_cons, ih]

theorem objValues_eq_map {results : Nat → ChunkData} {m : SelMap}
    (hc : selCoherent results m) :
    objValues m = (objKeys m).map results :=
  filterMap_eq_map_filter_of (selGet m) results (fun i v hv => hc i v hv) _

theorem length_objValues (m : SelMap) :
    (objValues m).length = (objKeys m).length :=
  length_filterMap_isSome (selGet m) _

theorem selCoherent_nil (results : Nat → ChunkData) : selCoherent results [] := by
  intro i v h
  simp [selGet] at h

theorem selCoherent_toggle {results : Nat → ChunkData} {m : SelMap}
    (hc : selCoherent results m) (i : Nat) :
    selCoherent results (handleToggleChunkSelection m i (results i)) := by
  intro j v h
  rw [selGet_toggle] at h
  by_cases hji : j = i
  · rw [if_pos hji] at h
    cases hm : (selGet m i).isSome with
    | true => rw [hm] at h; cases h
    | false =>
      rw [hm] at h
      simp only [Bool.false_eq_true, if_false, Option.some.injEq] at h
      rw [← h, hji]
  · rw [if_neg hji] at h
    exact hc j v h

theorem applyToggles_selGet (results : Nat → ChunkData) (is : List Nat) :
    ∀ (m : SelMap), selCoherent results m → ∀ j,
      selGet (applyToggles results m is) j =
        if (is.count j + (if (selGet m j).isSome then 1 else 0)) % 2 = 1
        then some (results j) else none := by
  induction is with
  | nil =>
    intro m hc j
    simp only [applyToggles, List.count_nil, Nat.zero_add]
    cases h : selGet m j with
    | none => simp
    | some v => simp [hc j v h]
  | cons i is ih =>
    intro m hc j
    show selGet (applyToggles results (handleToggleChunkSelection m i (results i)) is) j = _
    rw [ih _ (selCoherent_toggle hc i) j]
    have hcount : (i :: is).count j = is.count j + (if i = j then 1 else 0) := by
      simp [List.count_cons]
    have hcond :
        (is.count j + (if (selGet (handleToggleChunkSelection m i (results i)) j).isSome then 1 else 0)) % 2 =
        ((i :: is).count j + (if (selGet m j).isSome then 1 else 0)) % 2 := by
      rw [selGet_toggle, hcount]
      by_cases hji : j = i
      · subst hji
        rw [if_pos rfl, if_pos rfl]
        cases hm : selGet m j with
        | none => simp [hm]
        | some v =>
          simp [hm]
          all_goals omega
      · rw [if_neg hji, if_neg (fun h => hji (Eq.symm h))]
        omega
    rw [hcond]

theorem selectedChunkTexts_of_ne_nil {m : SelMap} (hm : objKeys m ≠ []) :
    selectedChunkTexts m = (objValues m).map (fun c => c.chunk) ∧
    selectedChunkTexts m ≠ [] := by
  have hlen : 0 < (objKeys m).length := List.length_pos.mpr hm
  unfold selectedChunkTexts
  rw [if_pos hlen]
  refine ⟨rfl, ?_⟩
  have : ((objValues m).map (fun c => c.chunk)).length = (objKeys m).length := by
    rw [List.length_map, length_objValues]
  intro hcontra
  rw [hcontra] at this
  simp at this
  omega

theorem selectedChunkTexts_of_nil {m : SelMap} (hm : objKeys m = []) :
    selectedChunkTexts m = [] := by
  unfold selectedChunkTexts
  rw [hm]
  simp

theorem runSearchEvents_flag_set (es : List SearchEvent)
    (h : ∀ e ∈ es, e ≠ SearchEvent.docChange) :
    runSearchEvents true es = (true, 0) := by
  induction es with
  | nil => rfl
  | cons e es ih =>
    cases e with
    | docChange => exact absurd rfl (h _ (List.mem_cons_self _ _))
    | searchClick dp qb ok =>
      have ihe := ih (fun e he => h e (List.mem_cons_of_mem _ he))
      cases dp <;> cases qb <;>
        simp [runSearchEvents, searchFlagStep, searchEmbedPhase, ihe]

/-- C8: under the app invariant that any value stored at a result index is
the search result passed for that index, toggling the same result index
twice in succession returns the selected-chunk map to its previous value
(extensionally — a JavaScript object is its key-to-value mapping), and a
single toggle changes no entry other than the toggled index. -/
theorem toggle_involution_and_local (m : SelMap) (i : Nat) (d : ChunkData)
    (h : ∀ v, selGet m i = some v → v = d) :
    (∀ j, selGet (handleToggleChunkSelection
        (handleToggleChunkSelection m i d) i d) j = selGet m j) ∧
    (∀ j, j ≠ i → selGet (handleToggleChunkSelection m i d) j = selGet m j) := by
  constructor
  · intro j
    rw [selGet_toggle]
    by_cases hji : j = i
    · subst hji
      rw [if_pos rfl, selGet_toggle, if_pos rfl]
      cases hm : selGet m j with
      | none => simp [hm]
      | some v => simp [hm, h v hm]
    · rw [if_neg hji, selGet_toggle, if_neg hji]
  · intro j hji
    rw [selGet_toggle, if_neg hji]

theorem toggle_involution_and_local_witness :
    selGet (handleToggleChunkSelection (handleToggleChunkSelection
        [(2, ⟨"c2", 0, none⟩)] 2 ⟨"c2", 0, none⟩) 2 ⟨"c2", 0, none⟩) 2
      = selGet [(2, (⟨"c2", 0, none⟩ : ChunkData))] 2 :=
  (toggle_involution_and_local [(2, ⟨"c2", 0, none⟩)] 2 ⟨"c2", 0, none⟩
    (fun v hv =>
      (Option.some.inj
        (show some (⟨"c2", 0, none⟩ : ChunkData) = some v from hv)).symm)).1 2

/-- C3: the selected-chunk set is empty immediately after every transition
that changes the active document id, after every successful upload, and
after every search that passes its guards (which triggers
`onSearchResultsUpdated`). -/
theorem selection_cleared_on_doc_change_and_search (s : AppState) (e : AppEvent) :
    ((appStep s e).docId ≠ s.docId → (appStep s e).selectedChunks = []) ∧
    (∀ d, (appStep s (AppEvent.uploadSuccess d)).selectedChunks = []) ∧
    ((appStep s AppEvent.searchIssued).selectedChunks = []) := by
  refine ⟨?_, fun d => rfl, rfl⟩
  intro h
  cases e with
  | uploadSuccess d => rfl
  | toggleChunk i d => exact absurd rfl h
  | clearSelections => rfl
  | searchIssued => rfl
  | embeddingsStatus st => exact absurd rfl h

theorem selection_cleared_witness :
    (appStep ⟨none, none, [(0, ⟨"c0", 0, none⟩)]⟩
        (AppEvent.uploadSuccess ⟨"doc1", "f.pdf", "text"⟩)).selectedChunks = [] :=
  (selection_cleared_on_doc_change_and_search
      ⟨none, none, [(0, ⟨"c0", 0, none⟩)]⟩
      (AppEvent.uploadSuccess ⟨"doc1", "f.pdf", "text"⟩)).1
    (by simp [appStep, AppState.docId])

/-- C9: over any sequence of search clicks with no document change, at most
one embed request is issued (none if the flag is already set); a document
change resets the flag and issues nothing; and any search click that issues
an embed request leaves the flag set, also when the embed call failed. -/
theorem embed_attempted_at_most_once (es : List SearchEvent)
    (h : ∀ e ∈ es, e ≠ SearchEvent.docChange) :
    (runSearchEvents false es).2 ≤ 1 ∧
    (runSearchEvents true es).2 = 0 ∧
    (∀ f : Bool, searchFlagStep f SearchEvent.docChange = (false, false)) ∧
    (∀ (f dp qb ok : Bool), (searchEmbedPhase dp qb ok f).2 = true →
      (searchEmbedPhase dp qb ok f).1 = true) := by
  refine ⟨?_, (congrArg Prod.snd (runSearchEvents_flag_set es h)), by decide, by decide⟩
  induction es with
  | nil => simp [runSearchEvents]
  | cons e es ih =>
    have ihe := ih (fun e he => h e (List.mem_cons_of_mem _ he))
    cases e with
    | docChange => exact absurd rfl (h _ (List.mem_cons_self _ _))
    | searchClick dp qb ok =>
      have hrest := runSearchEvents_flag_set es (fun e he => h e (List.mem_cons_of_mem _ he))
      cases dp <;> cases qb <;>
        simp [runSearchEvents, searchFlagStep, searchEmbedPhase, ihe, hrest]

theorem embed_attempted_at_most_once_witness :
    (runSearchEvents false
      [SearchEvent.searchClick true true false,
       SearchEvent.searchClick true true true]).2 ≤ 1 :=
  (embed_attempted_at_most_once
      [SearchEvent.searchClick true true false,
       SearchEvent.searchClick true true true] (by decide)).1

theorem applyToggles_nil_selGet (results : Nat → ChunkData) (is : List Nat) (j : Nat) :
    selGet (applyToggles results [] is) j =
      if is.count j % 2 = 1 then some (results j) else none := by
  have h := applyToggles_selGet results is [] (selCoherent_nil results) j
  simpa [selGet] using h

theorem applyToggles_coherent (results : Nat → ChunkData) (is : List Nat) :
    selCoherent results (applyToggles results [] is) := by
  intro j v h
  rw [applyToggles_nil_selGet] at h
  by_cases hc : is.count j % 2 = 1
  · rw [if_pos hc] at h
    exact (Option.some.inj h).symm
  · rw [if_neg hc] at h
    cases h

/-- C2: for any toggle sequence starting from the empty selection, the chunk
texts sent as chat context are the selected results' texts listed by
ascending result position — the enumeration keys are sorted ascending — and
which positions are selected depends only on how often each index was
toggled (odd parity), not on the order of the toggles. -/
theorem selected_context_order (results : Nat → ChunkData) (is : List Nat)
    (hne : objKeys (applyToggles results [] is) ≠ []) :
    selectedChunkTexts (applyToggles results [] is)
      = (objKeys (applyToggles results [] is)).map (fun i => (results i).chunk) ∧
    List.Sorted (· < ·) (objKeys (applyToggles results [] is)) ∧
    (∀ i, i ∈ objKeys (applyToggles results [] is) ↔ is.count i % 2 = 1) := by
  obtain ⟨htexts, -⟩ := selectedChunkTexts_of_ne_nil hne
  refine ⟨?_, ?_, ?_⟩
  · rw [htexts, objValues_eq_map (applyToggles_coherent results is), List.map_map]
    rfl
  · exact List.Pairwise.filter _ (List.sorted_lt_range _)
  · intro i
    rw [mem_objKeys, applyToggles_nil_selGet]
    by_cases hc : is.count i % 2 = 1 <;> simp [hc]

theorem selected_context_order_witness :
    2 ∈ objKeys (applyToggles (fun _ => ⟨"t", 0, none⟩) [] [4, 2]) ↔
      [4, 2].count 2 % 2 = 1 :=
  (selected_context_order (fun _ => ⟨"t", 0, none⟩) [4, 2] (by decide)).2.2 2

/-- C1: for every submitted chat question (the blank guard passed), the
payload follows the three-tier fallback: a non-empty selection puts the
selected chunks' texts in `context_chunks`; otherwise a truthy document id
is sent as `doc_id` with no `context_chunks` (the backend then uses the
full document); otherwise the payload carries only the question. -/
theorem chat_payload_three_tier (q : String) (docId : Option String) (m : SelMap)
    (hq : (jsTrim q == "") = false) :
    (objKeys m ≠ [] →
      handleQuestionSubmit q docId m = some
        { question := q,
          doc_id := if truthyStr docId then docId else none,
          context_chunks := some ((objValues m).map (fun c => c.chunk)) } ∧
      (objValues m).map (fun c => c.chunk) ≠ []) ∧
    (objKeys m = [] → truthyStr docId = true →
      handleQuestionSubmit q docId m = some { question := q, doc_id := docId }) ∧
    (objKeys m = [] → truthyStr docId = false →
      handleQuestionSubmit q docId m = some { question := q }) := by
  refine ⟨?_, ?_, ?_⟩
  · intro hm
    obtain ⟨htexts, hne⟩ := selectedChunkTexts_of_ne_nil hm
    have hpos : 0 < (selectedChunkTexts m).length := List.length_pos.mpr hne
    have hvne : objValues m ≠ [] := by
      intro h0
      rw [htexts, h0] at hne
      exact hne rfl
    refine ⟨?_, by rw [← htexts]; exact hne⟩
    unfold handleQuestionSubmit
    rw [hq, if_neg (by simp)]
    by_cases hdoc : truthyStr docId = true <;>
      simp [hdoc, hpos, htexts, hvne]
  · intro hm hdoc
    have htexts := selectedChunkTexts_of_nil hm
    unfold handleQuestionSubmit
    rw [hq, if_neg (by simp)]
    simp [hdoc, htexts]
  · intro hm hdoc
    have htexts := selectedChunkTexts_of_nil hm
    unfold handleQuestionSubmit
    rw [hq, if_neg (by simp)]
    simp [hdoc, htexts]

theorem chat_payload_three_tier_witness :
    handleQuestionSubmit "What is this?" (some "doc1") [] =
      some { question := "What is this?", doc_id := some "doc1" } :=
  (chat_payload_three_tier "What is this?" (some "doc1") [] (by decide)).2.1
    rfl (by decide)

/-- C10 counterexample: a status payload carrying an `error` field whose
value is the empty string does not produce the embedding-issue message —
the JavaScript truthiness probe `statusData.error` skips it and the handler
falls through to the unknown-format message. -/
theorem embeddings_status_error_field_counterexample :
    handleNewEmbeddingsStatus (some { error := some "" }) none
        = some "Embedding status received with unknown format." ∧
    (some "Embedding status received with unknown format." : Option String)
        ≠ some ("Embedding issue: " ++ "") := by
  exact ⟨rfl, by decide⟩

/-- C10 (amended): the handler keeps the previous status on null/undefined
input; for non-null input the precedence runs on truthy fields — a truthy
(non-empty) `error` string yields the embedding-issue message, else a
truthy (non-empty) `message` string is displayed, else a numeric
`successful_embeddings_count` yields the processed-counts message, else the
unknown-format message is shown. -/
theorem embeddings_status_precedence (st : StatusData) (prev : Option String) :
    handleNewEmbeddingsStatus none prev = prev ∧
    (truthyStr st.error = true →
      handleNewEmbeddingsStatus (some st) prev
        = some ("Embedding issue: " ++ st.error.getD "")) ∧
    (truthyStr st.error = false → truthyStr st.message = true →
      handleNewEmbeddingsStatus (some st) prev = st.message) ∧
    (truthyStr st.error = false → truthyStr st.message = false →
      st.successful_embeddings_count.isSome = true →
      handleNewEmbeddingsStatus (some st) prev
        = some ("Embeddings processed: " ++ jsNumString st.successful_embeddings_count
            ++ " of " ++ jsNumString st.total_chunks_processed ++ " chunks.")) ∧
    (truthyStr st.error = false → truthyStr st.message = false →
      st.successful_embeddings_count.isSome = false →
      handleNewEmbeddingsStatus (some st) prev
        = some "Embedding status received with unknown format.") := by
  refine ⟨rfl, ?_, ?_, ?_, ?_⟩
  · intro h1
    simp [handleNewEmbeddingsStatus, h1]
  · intro h1 h2
    simp [handleNewEmbeddingsStatus, h1, h2]
  · intro h1 h2 h3
    simp [handleNewEmbeddingsStatus, h1, h2, h3]
  · intro h1 h2 h3
    simp [handleNewEmbeddingsStatus, h1, h2, h3]

theorem embeddings_status_precedence_witness :
    handleNewEmbeddingsStatus (some { error := some "boom" }) none
      = some ("Embedding issue: " ++ "boom") :=
  (embeddings_status_precedence { error := some "boom" } none).2.1 (by decide)

/-- C7: every Document Index operation invoked with a document id that was
never ingested fails with `NotFound`; it is never treated as an empty
document or an empty result. -/
theorem unknown_docid_notFound (idx : DocumentIndex) (docId : String)
    (h : ∀ p ∈ idx, p.1 ≠ docId) :
    lookupDoc idx docId = Except.error IndexError.notFound ∧
    get_vectors idx docId = Except.error IndexError.notFound ∧
    (∀ provider, ensure_embedded provider idx docId
        = Except.error IndexError.notFound) ∧
    (∀ sim qv k, search sim idx docId (some qv) k
        = Except.error IndexError.notFound) := by
  have hfind : idx.find? (fun p => p.1 == docId) = none :=
    List.find?_eq_none.mpr (fun p hp => by simp [h p hp])
  have hl : lookupDoc idx docId = Except.error IndexError.notFound := by
    unfold lookupDoc
    rw [hfind]
  refine ⟨hl, ?_, fun provider => ?_, fun sim qv k => ?_⟩ <;>
    simp [get_vectors, ensure_embedded, search, hl, Except.map]

theorem unknown_docid_notFound_witness :
    lookupDoc [] "missing" = Except.error IndexError.notFound :=
  (unknown_docid_notFound [] "missing" (by simp)).1

theorem embedChunkStep_of_ok {provider : String → Option (List ℚ)} {c : Chunk}
    (h : c.status = EmbStatus.ok) : embedChunkStep provider c = (c, 0) := by
  simp [embedChunkStep, h]

theorem ensureEmbeddedChunks_fst (provider : String → Option (List ℚ))
    (cs : List Chunk) :
    (ensureEmbeddedChunks provider cs).1
      = cs.map (fun c => (embedChunkStep provider c).1) := by
  induction cs with
  | nil => rfl
  | cons c cs ih => simp [ensureEmbeddedChunks, ih]

theorem ensureEmbeddedChunks_snd (provider : String → Option (List ℚ))
    (cs : List Chunk) :
    (ensureEmbeddedChunks provider cs).2
      = cs.countP (fun c => !(c.status == EmbStatus.ok)) := by
  induction cs with
  | nil => rfl
  | cons c cs ih =>
    rw [List.countP_cons]
    by_cases hc : c.status = EmbStatus.ok
    · simp [ensureEmbeddedChunks, embedChunkStep, hc, ih]
    · cases hp : provider c.text <;>
        simp [ensureEmbeddedChunks, embedChunkStep, hc, hp, ih] <;>
        omega

theorem ensureEmbeddedChunks_of_allOk (provider : String → Option (List ℚ))
    (cs : List Chunk) (h : ∀ c ∈ cs, c.status = EmbStatus.ok) :
    ensureEmbeddedChunks provider cs = (cs, 0) := by
  induction cs with
  | nil => rfl
  | cons c cs ih =>
    have hc := @embedChunkStep_of_ok provider c
      (h c (List.mem_cons_self _ _))
    have ihe := ih (fun c hc2 => h c (List.mem_cons_of_mem _ hc2))
    simp [ensureEmbeddedChunks, hc, ihe]

/-- C6: `ensure_embedded` is idempotent — on a document whose chunks are all
`ok` it makes zero provider calls and returns the document unchanged, so a
second sequential call also makes zero calls; in general the number of
provider calls equals the number of chunks not yet `ok`, and chunks already
`ok` are left untouched at their positions. -/
theorem ensure_embedded_idempotent (p1 p2 : String → Option (List ℚ))
    (d : Document) :
    (d.allOk → ensureEmbeddedDoc p1 d = (d, 0)) ∧
    (d.allOk → ensureEmbeddedDoc p2 (ensureEmbeddedDoc p1 d).1
        = ((ensureEmbeddedDoc p1 d).1, 0)) ∧
    ((ensureEmbeddedDoc p1 d).2 = d.countNotOk) ∧
    (∀ k : Nat, ∀ hk : k < d.chunks.length,
      ∀ hk2 : k < (ensureEmbeddedDoc p1 d).1.chunks.length,
      (d.chunks.get ⟨k, hk⟩).status = EmbStatus.ok →
        (ensureEmbeddedDoc p1 d).1.chunks.get ⟨k, hk2⟩ = d.chunks.get ⟨k, hk⟩) := by
  have hall : d.allOk → ensureEmbeddedDoc p1 d = (d, 0) := by
    intro h
    unfold ensureEmbeddedDoc
    rw [ensureEmbeddedChunks_of_allOk p1 d.chunks h]
  refine ⟨hall, ?_, ?_, ?_⟩
  · intro h
    rw [hall h]
    unfold ensureEmbeddedDoc
    rw [ensureEmbeddedChunks_of_allOk p2 d.chunks h]
  · unfold ensureEmbeddedDoc Document.countNotOk
    exact ensureEmbeddedChunks_snd p1 d.chunks
  · intro k hk hk2 hok
    have hfst : (ensureEmbeddedDoc p1 d).1.chunks
        = d.chunks.map (fun c => (embedChunkStep p1 c).1) := by
      unfold ensureEmbeddedDoc
      exact ensureEmbeddedChunks_fst p1 d.chunks
    have hget : (ensureEmbeddedDoc p1 d).1.chunks.get ⟨k, hk2⟩
        = (embedChunkStep p1 (d.chunks.get ⟨k, hk⟩)).1 := by
      have := List.get_of_eq hfst ⟨k, hk2⟩
      rw [this, List.get_map]
    rw [hget, embedChunkStep_of_ok hok]

theorem ensure_embedded_idempotent_witness :
    ensureEmbeddedDoc (fun _ => none) (⟨[⟨0, "c", EmbStatus.ok, some [1]⟩]⟩ : Document)
      = ((⟨[⟨0, "c", EmbStatus.ok, some [1]⟩]⟩ : Document), 0) :=
  (ensure_embedded_idempotent (fun _ => none) (fun _ => none)
      ⟨[⟨0, "c", EmbStatus.ok, some [1]⟩]⟩).1
    (by
      intro c hc
      rcases List.mem_singleton.mp hc with rfl
      rfl)

theorem normSq_cons (y : ℚ) (l : List ℚ) :
    normSq (y :: l) = y * y + normSq l := by
  simp [normSq, dotQ]

theorem normSq_nonneg (a : List ℚ) : 0 ≤ normSq a := by
  induction a with
  | nil => simp [normSq, dotQ]
  | cons y l ih =>
    rw [normSq_cons]
    exact add_nonneg (mul_self_nonneg y) ih

theorem normSq_pos_of_not_zero {a : List ℚ} (h : isZeroVec a = false) :
    0 < normSq a := by
  induction a with
  | nil => simp [isZeroVec] at h
  | cons y l ih =>
    rw [normSq_cons]
    by_cases hy : y = 0
    · subst hy
      have hl : isZeroVec l = false := by simpa [isZeroVec] using h
      simpa using add_pos_of_nonneg_of_pos (mul_self_nonneg (0 : ℚ)) (ih hl)
    · exact add_pos_of_pos_of_nonneg (mul_self_pos.mpr hy) (normSq_nonneg l)

/-- C5: the similarity computation is total — it equals
`dot(a,b) / (sqrt(normSq a) * sqrt(normSq b))` whenever both vectors are
non-zero (and the denominator is then provably non-zero, so no division by
a zero norm product occurs), and it is defined to be 0 when either vector
is the zero vector. -/
theorem cosineSim_total_spec (a b : List ℚ) :
    (isZeroVec a = true ∨ isZeroVec b = true → cosineSim a b = 0) ∧
    (isZeroVec a = false → isZeroVec b = false →
      Real.sqrt ((normSq a : ℝ)) * Real.sqrt ((normSq b : ℝ)) ≠ 0 ∧
      cosineSim a b
        = (dotQ a b : ℝ) /
            (Real.sqrt ((normSq a : ℝ)) * Real.sqrt ((normSq b : ℝ)))) := by
  constructor
  · intro h
    unfold cosineSim
    rcases h with h | h <;> simp [h]
  · intro ha hb
    have hsa : (0 : ℝ) < Real.sqrt ((normSq a : ℝ)) :=
      Real.sqrt_pos.mpr (by exact_mod_cast normSq_pos_of_not_zero ha)
    have hsb : (0 : ℝ) < Real.sqrt ((normSq b : ℝ)) :=
      Real.sqrt_pos.mpr (by exact_mod_cast normSq_pos_of_not_zero hb)
    refine ⟨ne_of_gt (mul_pos hsa hsb), ?_⟩
    unfold cosineSim
    rw [if_neg (by simp [ha, hb])]

theorem cosineSim_total_spec_witness :
    cosineSim [0] [1] = 0 :=
  (cosineSim_total_spec [0] [1]).1 (Or.inl (by decide))

theorem resultLE_trans (a b c : SearchResult) (hab : resultLE a b = true)
    (hbc : resultLE b c = true) : resultLE a c = true := by
  simp only [resultLE, Bool.or_eq_true, Bool.and_eq_true, decide_eq_true_eq]
    at hab hbc ⊢
  rcases hab with h1 | ⟨h1e, h1i⟩ <;> rcases hbc with h2 | ⟨h2e, h2i⟩
  · exact Or.inl (h2.trans h1)
  · exact Or.inl (h2e ▸ h1)
  · exact Or.inl (by rw [h1e]; exact h2)
  · exact Or.inr ⟨h1e.trans h2e, h1i.trans h2i⟩

theorem resultLE_total (a b : SearchResult) :
    (resultLE a b || resultLE b a) = true := by
  simp only [resultLE, Bool.or_eq_true, Bool.and_eq_true, decide_eq_true_eq]
  rcases lt_trichotomy a.score b.score with h | h | h
  · exact Or.inr (Or.inl h)
  · rcases Nat.le_total a.index b.index with hi | hi
    · exact Or.inl (Or.inr ⟨h, hi⟩)
    · exact Or.inr (Or.inr ⟨h.symm, hi⟩)
  · exact Or.inl (Or.inl h)

/-- C4: a successful search returns at most `top_k` results, sorted by
non-increasing similarity score with ties broken by ascending chunk
index. -/
theorem search_topk_sorted (sim : List ℚ → List ℚ → ℚ) (idx : DocumentIndex)
    (docId : String) (qv : List ℚ) (k : Nat) (rs : List SearchResult)
    (h : search sim idx docId (some qv) k = Except.ok rs) :
    rs.length ≤ k ∧
    rs.Pairwise (fun a b => b.score ≤ a.score ∧
      (a.score = b.score → a.index ≤ b.index)) := by
  unfold search at h
  cases hg : get_vectors idx docId with
  | error e =>
    rw [hg] at h
    simp [Except.map] at h
  | ok pairs =>
    rw [hg] at h
    simp only [Except.map, Except.ok.injEq] at h
    subst h
    constructor
    · rw [List.length_take]
      exact min_le_left _ _
    · have hs := @List.sorted_mergeSort SearchResult resultLE
        resultLE_trans resultLE_total
        (pairs.map (fun p =>
          { index := p.1.index, chunk := p.1.text, score := sim p.2 qv : SearchResult }))
      have hp := List.Pairwise.sublist (List.take_sublist k _) hs
      refine hp.imp ?_
      intro a b hab
      simp only [resultLE, Bool.or_eq_true, Bool.and_eq_true,
        decide_eq_true_eq] at hab
      rcases hab with h1 | ⟨h1e, h1i⟩
      · exact ⟨le_of_lt h1, fun he => absurd h1 (by rw [he]; exact lt_irrefl _)⟩
      · exact ⟨le_of_eq h1e.symm, fun _ => h1i⟩

theorem search_topk_sorted_witness :
    ([] : List SearchResult).length ≤ 2 ∧
    ([] : List SearchResult).Pairwise (fun a b => b.score ≤ a.score ∧
      (a.score = b.score → a.index ≤ b.index)) :=
  search_topk_sorted dotQ [("d", ⟨[]⟩)] "d" [1] 2 []
    (by simp [search, get_vectors, lookupDoc, Except.map])
